import Mathlib

/-!
Verification development for the BusTub-derived storage engine
(copy-on-write trie, LRU-K replacer, buffer pool, page guards, disk
scheduler, extendible hash index, aggregation executor, optimizer rules).

Each C++ component is shallowly embedded as executable Lean definitions
translated from the corresponding source file, and the spec's claims are
settled as theorems about those definitions.
-/

set_option autoImplicit false

namespace BusTub

/-! ## Copy-on-write trie (`src/primer/trie.cpp`, `src/include/primer/trie.h`)

Keys are `std::string_view`s, i.e. sequences of 8-bit characters; we model a
character as `Fin 256` and a key as a `List` of characters.  A `TrieNode` has
an ordered map `children_ : char → node` (modelled as an association list
with unique keys, looked up by `mapFind`) and, for `TrieNodeWithValue`, a
stored value (`value = some v`; plain `TrieNode` has `value = none`, matching
`is_value_node_ = false`).  Values are modelled at a single element type
`Nat`, matching the claim's use of the same type `T` for put and get. -/

abbrev Byte := Fin 256

inductive TrieNode where
  | mk (children : List (Byte × TrieNode)) (value : Option Nat) : TrieNode

namespace TrieNode

def children : TrieNode → List (Byte × TrieNode)
  | mk cs _ => cs

def value : TrieNode → Option Nat
  | mk _ v => v

end TrieNode

/-- `std::map<char, shared_ptr<const TrieNode>>::find`. -/
def mapFind (l : List (Byte × TrieNode)) (c : Byte) : Option TrieNode :=
  match l with
  | [] => none
  | (k, n) :: rest => if k = c then some n else mapFind rest c

/-- `children_[c] = n`: insert-or-overwrite, as `std::map::operator[]`. -/
def mapInsert (l : List (Byte × TrieNode)) (c : Byte) (n : TrieNode) :
    List (Byte × TrieNode) :=
  match l with
  | [] => [(c, n)]
  | (k, m) :: rest => if k = c then (c, n) :: rest else (k, m) :: mapInsert rest c n

/-- `children_.erase(c)`. -/
def mapErase (l : List (Byte × TrieNode)) (c : Byte) : List (Byte × TrieNode) :=
  match l with
  | [] => []
  | (k, m) :: rest => if k = c then rest else (k, m) :: mapErase rest c

/-- The node reached from `root` by following `key` (`cur_old` in
`Trie::Put`: it becomes null as soon as a character is missing). -/
def trieDescend (root : Option TrieNode) : List Byte → Option TrieNode
  | [] => root
  | c :: rest =>
    match root with
    | none => none
    | some n => trieDescend (mapFind n.children c) rest

/-- `Trie::Get` walk from a node (the root handle is an `Option`). -/
def trieGetNode (n : TrieNode) : List Byte → Option Nat
  | [] => n.value
  | c :: rest =>
    match mapFind n.children c with
    | some m => trieGetNode m rest
    | none => none

/-- `Trie::Get`. -/
def trieGet (root : Option TrieNode) (key : List Byte) : Option Nat :=
  match root with
  | none => none
  | some n => trieGetNode n key

/-- `old->Clone()` where a missing node clones to a fresh empty `TrieNode`
(this is exactly how `Trie::Put` treats a broken path). -/
def cloneOf : Option TrieNode → TrieNode
  | some n => n
  | none => TrieNode.mk [] none

/-- Child lookup through an optional node. -/
def childOf (n : Option TrieNode) (c : Byte) : Option TrieNode :=
  match n with
  | none => none
  | some m => mapFind m.children c

/-- The per-level loop of `Trie::Put` for a key split as `keyHead ++ [back]`
(`back ≠ '\0'` branch): each level is the clone of the old node with the
path child replaced; the terminal child becomes a `TrieNodeWithValue`
carrying the old terminal's children. -/
def putAux (old : Option TrieNode) (keyHead : List Byte) (back : Byte) (v : Nat) :
    TrieNode :=
  match keyHead with
  | [] =>
    let base := cloneOf old
    let oldChild := childOf old back
    TrieNode.mk (mapInsert base.children back
      (TrieNode.mk (cloneOf oldChild).children (some v))) base.value
  | c :: rest =>
    let base := cloneOf old
    TrieNode.mk (mapInsert base.children c (putAux (childOf old c) rest back v)) base.value

/-- `Trie::Put`.  The C++ splits the key into `key_head = key.substr(0,
key.size()-1)` and `key_back = key.empty() ? '\0' : key.back()` and then
branches on `!key_back`: the "empty key" branch therefore also triggers for
any non-empty key whose **last** character is the NUL byte, in which case
the new root is a value node carrying the children of the node reached by
`key_head` in the old trie. -/
def triePut (root : Option TrieNode) (key : List Byte) (v : Nat) : Option TrieNode :=
  let back : Byte := match key.getLast? with
    | some b => b
    | none => 0
  if back = 0 then
    some (TrieNode.mk (cloneOf (trieDescend root key.dropLast)).children (some v))
  else
    some (putAux root key.dropLast back v)

/-- The walk/prune core of `Trie::Remove` on one node.
`none` = key not found (the original trie is returned unchanged);
`some none` = this node is pruned away; `some (some m)` = replaced by `m`. -/
def removeAux (n : TrieNode) : List Byte → Option (Option TrieNode)
  | [] =>
    if n.value.isSome then
      if n.children.isEmpty then some none
      else some (some (TrieNode.mk n.children none))
    else none
  | c :: rest =>
    match mapFind n.children c with
    | none => none
    | some child =>
      match removeAux child rest with
      | none => none
      | some (some m) => some (some (TrieNode.mk (mapInsert n.children c m) n.value))
      | some none =>
        let ch := mapErase n.children c
        if n.value.isNone ∧ ch.isEmpty then some none
        else some (some (TrieNode.mk ch n.value))

/-- `Trie::Remove`. -/
def trieRemove (root : Option TrieNode) (key : List Byte) : Option TrieNode :=
  match root with
  | none => none
  | some n =>
    match removeAux n key with
    | none => some n
    | some r => r

/-- Well-formedness of a trie node: the children of every node form a
genuine map (pairwise-distinct characters), as `std::map` guarantees in
the C++. -/
inductive WFNode : TrieNode → Prop where
  | mk : ∀ (cs : List (Byte × TrieNode)) (v : Option Nat),
      cs.Pairwise (fun p q => p.1 ≠ q.1) →
      (∀ p ∈ cs, WFNode p.2) → WFNode (TrieNode.mk cs v)

/-- Well-formedness of a trie root handle. -/
def WFRoot : Option TrieNode → Prop
  | none => True
  | some n => WFNode n

/-! ## LRU-K replacer (`src/buffer/lru_k_replacer.cpp`, header in the repo's
`lru_k_replacer.h`)

State mirrors the C++ members.  The `unordered_map`s (`time_frame_`,
`recorded_cnt_`, `evictable_`) are modelled as total functions with the
default-constructed value (`[]`, `0`, `false`) for absent keys, exactly the
observable behaviour of `operator[]`.  `new_locate_`/`cache_locate_` are
iterator caches whose content is determined by the lists, so an `erase` via
a stored iterator is modelled as erasing the frame's (unique) occurrence.
All mutex operations are dropped, as everywhere in this single-threaded
embedding; the nested `Evict(&frame)` call inside `RecordAccess` (which in
the C++ re-locks the already-held non-recursive `latch_`) is embedded as a
plain call. -/

structure LRUKReplacer where
  k : Nat
  replacerSize : Nat
  maxSize : Nat
  currSize : Nat
  currentTimestamp : Nat
  timeFrame : Nat → List Nat
  recordedCnt : Nat → Nat
  evictable : Nat → Bool
  /-- `new_frame_`: history list, `push_front` on first access, so the
  front is the most recently first-seen frame. -/
  newFrame : List Nat
  /-- `cache_frame_`: (frame, k-th most recent timestamp), kept sorted by
  timestamp via `std::upper_bound` insertion. -/
  cacheFrame : List (Nat × Nat)

/-- `LRUKReplacer(num_frames, k)`. -/
def lruInit (numFrames kVal : Nat) : LRUKReplacer where
  k := kVal
  replacerSize := numFrames
  maxSize := numFrames
  currSize := 0
  currentTimestamp := 0
  timeFrame := fun _ => []
  recordedCnt := fun _ => 0
  evictable := fun _ => false
  newFrame := []
  cacheFrame := []

/-- `LRUKReplacer::Size`. -/
def lruSize (r : LRUKReplacer) : Nat := r.currSize

/-- `LRUKReplacer::Evict`.  Scans the history list from its tail (`rbegin`,
earliest first access) for an evictable frame, then the cache list from its
head (smallest k-th timestamp, i.e. largest backward k-distance). -/
def lruEvict (r : LRUKReplacer) : Option Nat × LRUKReplacer :=
  if r.currSize = 0 then (none, r)
  else
    match r.newFrame.reverse.find? (fun f => r.evictable f) with
    | some f =>
      (some f,
        { r with
          recordedCnt := fun g => if g = f then 0 else r.recordedCnt g,
          newFrame := r.newFrame.filter (fun g => g ≠ f),
          currSize := r.currSize - 1,
          timeFrame := fun g => if g = f then [] else r.timeFrame g })
    | none =>
      match r.cacheFrame.find? (fun p => r.evictable p.1) with
      | some e =>
        (some e.1,
          { r with
            recordedCnt := fun g => if g = e.1 then 0 else r.recordedCnt g,
            cacheFrame := r.cacheFrame.eraseP (fun p => r.evictable p.1),
            currSize := r.currSize - 1,
            timeFrame := fun g => if g = e.1 then [] else r.timeFrame g })
      | none => (none, r)

/-- `std::upper_bound` + `insert` with comparator `f1.second < f2.second`:
the new entry goes after every entry whose timestamp is `≤` its own. -/
def lruInsertSorted (l : List (Nat × Nat)) (e : Nat × Nat) : List (Nat × Nat) :=
  match l with
  | [] => [e]
  | p :: rest => if p.2 ≤ e.2 then p :: lruInsertSorted rest e else e :: p :: rest

/-- `LRUKReplacer::RecordAccess`.  `none` models the `throw` on
`frame_id > replacer_size_` (note the source's bound check is `>`, so
`frame_id == replacer_size_` is accepted). -/
def lruRecordAccess (r : LRUKReplacer) (fid : Nat) : Option LRUKReplacer :=
  if r.replacerSize < fid then none
  else
    let ts := r.currentTimestamp + 1
    let cnt := r.recordedCnt fid + 1
    let r1 : LRUKReplacer :=
      { r with
        currentTimestamp := ts,
        recordedCnt := fun g => if g = fid then cnt else r.recordedCnt g,
        timeFrame := fun g => if g = fid then r.timeFrame fid ++ [ts] else r.timeFrame g }
    let r2 :=
      if cnt = 1 then
        let r1e := if r1.currSize = r1.maxSize then (lruEvict r1).2 else r1
        { r1e with
          evictable := fun g => if g = fid then true else r1e.evictable g,
          currSize := r1e.currSize + 1,
          newFrame := fid :: r1e.newFrame }
      else r1
    if cnt = r.k then
      some { r2 with
        newFrame := r2.newFrame.erase fid,
        cacheFrame := lruInsertSorted r2.cacheFrame (fid, (r2.timeFrame fid).headD 0) }
    else if r.k < cnt then
      let tf := (r2.timeFrame fid).tail
      some { r2 with
        timeFrame := fun g => if g = fid then tf else r2.timeFrame g,
        cacheFrame := lruInsertSorted (r2.cacheFrame.eraseP (fun p => p.1 = fid))
          (fid, tf.headD 0) }
    else some r2

/-- `LRUKReplacer::SetEvictable`. -/
def lruSetEvictable (r : LRUKReplacer) (fid : Nat) (flag : Bool) : LRUKReplacer :=
  if r.recordedCnt fid = 0 then r
  else
    let status := r.evictable fid
    let r1 := { r with evictable := fun g => if g = fid then flag else r.evictable g }
    if status ∧ ¬flag then
      { r1 with maxSize := r1.maxSize - 1, currSize := r1.currSize - 1 }
    else if ¬status ∧ flag then
      { r1 with maxSize := r1.maxSize + 1, currSize := r1.currSize + 1 }
    else r1

/-- The frames the replacer currently tracks (members of either list). -/
def lruTracked (r : LRUKReplacer) : List Nat :=
  r.newFrame ++ r.cacheFrame.map Prod.fst

/-- The tracked frames currently marked evictable: the eviction candidates. -/
def lruEvictableFrames (r : LRUKReplacer) : List Nat :=
  (lruTracked r).filter (fun f => r.evictable f)

/-- The head of a frame's recorded-timestamp list: for a frame with fewer
than `k` accesses this is its first-access timestamp; for a frame with `≥ k`
accesses (history trimmed to `k` entries) it is the k-th most recent access
timestamp. -/
def lruHeadTime (r : LRUKReplacer) (f : Nat) : Nat :=
  (r.timeFrame f).headD 0

/-- Backward k-distance; `none` is `+∞` (fewer than `k` recorded accesses). -/
def lruKDistance (r : LRUKReplacer) (f : Nat) : Option Nat :=
  if r.recordedCnt f < r.k then none
  else some (r.currentTimestamp - lruHeadTime r f)

/-- The consistency invariant tying the two scan lists to the per-frame
maps; it holds for every replacer state the buffer pool can reach and is
what the eviction scans rely on.  All clauses quantify over the finite
lists, so the predicate is decidable on concrete states. -/
def LRUWF (r : LRUKReplacer) : Prop :=
  0 < r.k ∧
  (∀ f ∈ r.newFrame, 0 < r.recordedCnt f ∧ r.recordedCnt f < r.k) ∧
  (∀ p ∈ r.cacheFrame, r.k ≤ r.recordedCnt p.1 ∧ (r.timeFrame p.1).head? = some p.2) ∧
  r.newFrame.Pairwise (fun a b => lruHeadTime r b < lruHeadTime r a) ∧
  r.cacheFrame.Pairwise (fun p q => p.2 ≤ q.2) ∧
  r.currSize = (lruEvictableFrames r).length

instance (r : LRUKReplacer) : Decidable (LRUWF r) := by
  unfold LRUWF
  infer_instance

/-- The spec's LRU-K tiebreak scenario: `k = 2`; frames 0 and 1 first
accessed at timestamps 1 and 2, frame 0 accessed again at timestamp 3, both
evictable.  (This is the state `lruRecordAccess` produces from `lruInit 7 2`
after accesses 0, 1, 0 followed by marking both evictable.) -/
def lruScenario3 : LRUKReplacer where
  k := 2
  replacerSize := 7
  maxSize := 7
  currSize := 2
  currentTimestamp := 3
  timeFrame := fun f => if f = 0 then [1, 3] else if f = 1 then [2] else []
  recordedCnt := fun f => if f = 0 then 2 else if f = 1 then 1 else 0
  evictable := fun f => f < 2
  newFrame := [1]
  cacheFrame := [(0, 1)]

/-! ## Buffer pool manager (`src/buffer/buffer_pool_manager.cpp`)

Only the parts the claims exercise are embedded: the `Page` frame metadata
and `UnpinPage`.  The page table (`std::unordered_map<page_id_t,
frame_id_t>`) is an association list; the frame array is a function. -/

def INVALID_PAGE_ID : Int := -1

structure Page where
  pageId : Int
  pinCount : Nat
  isDirty : Bool
  /-- `data_`; `UnpinPage` never touches it. -/
  data : List Nat

structure BufferPoolManager where
  poolSize : Nat
  pages : Nat → Page
  pageTable : List (Int × Nat)
  freeList : List Nat
  replacer : LRUKReplacer
  nextPageId : Int

/-- `page_table_.find(page_id)`. -/
def lookupPT (l : List (Int × Nat)) (pid : Int) : Option Nat :=
  match l with
  | [] => none
  | (k, f) :: rest => if k = pid then some f else lookupPT rest pid

def updatePages (f : Nat → Page) (fid : Nat) (p : Page) : Nat → Page :=
  fun g => if g = fid then p else f g

/-- `BufferPoolManager::UnpinPage`.  Note the source ORs the dirty argument
into the page's dirty flag *before* checking the pin count. -/
def unpinPage (b : BufferPoolManager) (pid : Int) (dirty : Bool) :
    Bool × BufferPoolManager :=
  if pid = INVALID_PAGE_ID then (false, b)
  else
    match lookupPT b.pageTable pid with
    | none => (false, b)
    | some fid =>
      let page := b.pages fid
      let page1 := { page with isDirty := dirty || page.isDirty }
      let b1 := { b with pages := updatePages b.pages fid page1 }
      if page1.pinCount = 0 then (false, b1)
      else
        let page2 := { page1 with pinCount := page1.pinCount - 1 }
        let b2 := { b1 with pages := updatePages b1.pages fid page2 }
        if page2.pinCount = 0 then
          (true, { b2 with replacer := lruSetEvictable b2.replacer fid true })
        else (true, b2)

/-- A buffer pool holding one page (id 1 in frame 0) whose pin count has
already dropped to 0 and whose dirty flag is clear. -/
def bpmPinZeroState : BufferPoolManager where
  poolSize := 1
  pages := fun _ => { pageId := 1, pinCount := 0, isDirty := false, data := [] }
  pageTable := [(1, 0)]
  freeList := []
  replacer := lruInit 1 2
  nextPageId := 2

/-! ## Page guards (`src/storage/page/page_guard.cpp`, the repo's unnamed
`BasicPageGuard` implementation file)

`bpm_` and `page_` are nullable pointers, modelled as `Option`s (the `Int`
of `page` is the pointed-to page's id, which is what `Drop` passes to
`UnpinPage`).  Each operation returns the guard states it leaves behind
together with the list of `UnpinPage(page_id, is_dirty)` calls it issued,
so "releases the pin exactly once" is the statement that the event lists
of a whole drop/move/destroy sequence concatenate to a single unpin. -/

structure BasicPageGuard where
  bpm : Option Nat
  page : Option Int
  isDirty : Bool

/-- `BasicPageGuard::Drop`: unpin only when both pointers are non-null,
then null both (the dirty flag is left as-is). -/
def guardDrop (g : BasicPageGuard) : BasicPageGuard × List (Int × Bool) :=
  (⟨none, none, g.isDirty⟩,
    match g.bpm, g.page with
    | some _, some pid => [(pid, g.isDirty)]
    | _, _ => [])

/-- `BasicPageGuard::BasicPageGuard(BasicPageGuard&&)`: returns (new guard,
moved-from source). -/
def guardMoveCtor (that : BasicPageGuard) : BasicPageGuard × BasicPageGuard :=
  (⟨that.bpm, that.page, that.isDirty⟩, ⟨none, none, that.isDirty⟩)

/-- `BasicPageGuard::operator=(BasicPageGuard&&)`: drops the target first;
returns (new target, moved-from source, unpin events). -/
def guardMoveAssign (tgt src : BasicPageGuard) :
    BasicPageGuard × BasicPageGuard × List (Int × Bool) :=
  (⟨src.bpm, src.page, src.isDirty⟩, ⟨none, none, src.isDirty⟩, (guardDrop tgt).2)

/-- `BasicPageGuard::~BasicPageGuard`: just `Drop()`. -/
def guardDestructor (g : BasicPageGuard) : BasicPageGuard × List (Int × Bool) :=
  guardDrop g

/-- A live guard pinning page 5 through pool handle 0. -/
def guardExample : BasicPageGuard := ⟨some 0, some 5, false⟩

/-! ## Disk scheduler (`src/storage/disk/disk_scheduler.cpp`)

The request queue is the list of `Option DiskRequest`s the worker drains in
FIFO order (`none` is the shutdown sentinel the destructor enqueues). -/

structure DiskRequest where
  isWrite : Bool
  pageId : Int
deriving DecidableEq

/-- Modelled from the spec: the `DiskManager` (an external collaborator,
spec §6) performs a blocking `read_page`/`write_page` per request; spec §7
lists `IOError` as a failure its calls can surface, so the outcome of each
call is modelled as a `Bool`-valued oracle over the request.  The worker
under test never inspects this outcome. -/
def DiskOutcome := DiskRequest → Bool

/-- `DiskScheduler::StartWorkerThread`: dequeue until the sentinel; perform
the I/O; then `request->callback_.set_value(true)` — unconditionally.  Each
output triple is (request, I/O outcome, value the promise was fulfilled
with). -/
def startWorkerThread (dm : DiskOutcome) :
    List (Option DiskRequest) → List (DiskRequest × Bool × Bool)
  | [] => []
  | none :: _ => []
  | some req :: rest =>
    let outcome := dm req
    (req, outcome, true) :: startWorkerThread dm rest

/-! ## Aggregation executor (`src/execution/aggregation_executor.cpp`,
`src/include/execution/executors/aggregation_executor.h`)

`Value` is BusTub's nullable value (`none` = SQL NULL, integers otherwise);
a tuple is a list of values.  Group-by and aggregate expressions are
evaluator functions over the child tuple, as `Evaluate` produces.  The
`SimpleAggregationHashTable` is an association list from group key to the
vector of running aggregate values. -/

abbrev Value := Option Int

abbrev Tuple := List Value

inductive AggregationType where
  | countStar
  | count
  | sum
  | min
  | max
deriving DecidableEq

/-- `SimpleAggregationHashTable::GenerateInitialAggregateValue`. -/
def generateInitialAggregateValue (types : List AggregationType) : List Value :=
  types.map fun t =>
    match t with
    | .countStar => some 0
    | _ => none

/-- One case of `CombineAggregateValues` (old running value, new input). -/
def combineOne : AggregationType → Value → Value → Value
  | .countStar, old, _ => some (old.getD 0 + 1)
  | .count, old, new =>
    match new with
    | none => old
    | some _ => some (old.getD 0 + 1)
  | .sum, old, new =>
    match new with
    | none => old
    | some nv =>
      match old with
      | none => some nv
      | some ov => some (ov + nv)
  | .min, old, new =>
    match new with
    | none => old
    | some nv =>
      match old with
      | none => some nv
      | some ov => some (if nv < ov then nv else ov)
  | .max, old, new =>
    match new with
    | none => old
    | some nv =>
      match old with
      | none => some nv
      | some ov => some (if ov < nv then nv else ov)

/-- `SimpleAggregationHashTable::CombineAggregateValues` (the `i`-loop over
the aggregate expressions, pointwise on the running and input vectors). -/
def combineAggregateValues :
    List AggregationType → List Value → List Value → List Value
  | t :: ts, old :: olds, new :: news =>
    combineOne t old new :: combineAggregateValues ts olds news
  | _, _, _ => []

/-- `SimpleAggregationHashTable::InsertCombine`. -/
def insertCombine (types : List AggregationType)
    (ht : List (List Value × List Value)) (key : List Value) (val : List Value) :
    List (List Value × List Value) :=
  let ht1 :=
    if ht.any (fun p => p.1 = key) then ht
    else ht ++ [(key, generateInitialAggregateValue types)]
  ht1.map fun p =>
    if p.1 = key then (p.1, combineAggregateValues types p.2 val) else p

structure AggPlan where
  groupBys : List (Tuple → Value)
  aggregates : List (Tuple → Value)
  aggTypes : List AggregationType

/-- `AggregationExecutor::MakeAggregateKey`. -/
def makeAggregateKey (plan : AggPlan) (t : Tuple) : List Value :=
  plan.groupBys.map fun e => e t

/-- `AggregationExecutor::MakeAggregateValue`. -/
def makeAggregateValue (plan : AggPlan) (t : Tuple) : List Value :=
  plan.aggregates.map fun e => e t

/-- The executor state after `Init`: the filled hash table, the iterator
(the not-yet-emitted suffix), and the `copy_with_empty_` flag. -/
structure AggState where
  ht : List (List Value × List Value)
  iter : List (List Value × List Value)
  copyWithEmpty : Bool

/-- `AggregationExecutor::Init`: drain the child rows into the table, reset
the iterator, clear `copy_with_empty_`. -/
def aggInit (plan : AggPlan) (rows : List Tuple) : AggState :=
  let ht := rows.foldl
    (fun h t => insertCombine plan.aggTypes h (makeAggregateKey plan t)
      (makeAggregateValue plan t)) []
  { ht := ht, iter := ht, copyWithEmpty := false }

/-- `AggregationExecutor::Next`. -/
def aggNext (plan : AggPlan) (s : AggState) : Option (List Value) × AggState :=
  if s.ht ≠ [] then
    match s.iter with
    | [] => (none, s)
    | (k, v) :: rest => (some (k ++ v), { s with iter := rest })
  else if s.copyWithEmpty then (none, s)
  else
    let s1 := { s with copyWithEmpty := true }
    if plan.groupBys.isEmpty then
      (some (generateInitialAggregateValue plan.aggTypes), s1)
    else (none, s1)

/-- `SELECT COUNT(*), SUM(x)` with no `GROUP BY`. -/
def aggPlanNoGroupBy : AggPlan where
  groupBys := []
  aggregates := [fun t => t.headD none, fun t => t.headD none]
  aggTypes := [AggregationType.countStar, AggregationType.sum]

/-- The same aggregates with one `GROUP BY` expression. -/
def aggPlanGroupBy : AggPlan where
  groupBys := [fun t => t.headD none]
  aggregates := [fun t => t.headD none]
  aggTypes := [AggregationType.count]

/-! ## Sort+Limit→TopN optimizer rule (`src/optimizer/sort_limit_as_topn.cpp`)

Plan nodes are a tagged tree; the fields the rule inspects (`limit_`, the
order-by list) are kept, everything else (schemas, table metadata) is an
opaque tag.  `CloneWithChildren` is constructor reassembly with new
children. -/

inductive PlanNode where
  | seqScan (tag : Nat)
  | limit (n : Nat) (children : List PlanNode)
  | sort (orderBy : Nat) (children : List PlanNode)
  | topN (n : Nat) (orderBy : Nat) (children : List PlanNode)
  | other (tag : Nat) (children : List PlanNode)

mutual

/-- `Optimizer::OptimizeSortLimitAsTopN`: rewrite children post-order, then
if the node is a `Limit` whose first child is a `Sort`, build
`TopNPlanNode(schema, optimized_plan->children_[0], sort.GetOrderBy(),
limit.limit_)` — whose child is `children_[0]`, i.e. the Sort node itself. -/
def optimizeSortLimitAsTopN : PlanNode → PlanNode
  | .seqScan t => .seqScan t
  | .limit n cs =>
    match optimizeSortLimitAsTopNList cs with
    | .sort ob scs :: _ => .topN n ob [.sort ob scs]
    | cs2 => .limit n cs2
  | .sort ob cs => .sort ob (optimizeSortLimitAsTopNList cs)
  | .topN n ob cs => .topN n ob (optimizeSortLimitAsTopNList cs)
  | .other t cs => .other t (optimizeSortLimitAsTopNList cs)

def optimizeSortLimitAsTopNList : List PlanNode → List PlanNode
  | [] => []
  | p :: ps => optimizeSortLimitAsTopN p :: optimizeSortLimitAsTopNList ps

end

/-! ## Disk-resident extendible hash table
(`src/container/disk/hash/disk_extendible_hash_table.cpp`,
`src/storage/page/extendible_htable_bucket_page.cpp`, and the repo's
directory/header page implementation files)

Instantiated at `<int, int, IntComparator>`; the hash function is the
constructor-supplied `HashFunction<K>`, modelled as a `Nat`-valued oracle
truncated to 32 bits.  The buffer pool is abstracted to a page store
(page id → page content): pins, guards and latches have no functional
effect single-threaded.  Directory arrays (`local_depths_[512]`,
`bucket_page_ids_[512]`) are total functions; `Init` fills the first
`2^max_depth` entries (`0` / `INVALID_PAGE_ID`) and the rest of the page
is zero-filled by the pool's `ResetMemory`, hence depth `0` and page id
`0` beyond the initialized prefix — exactly what the source's
out-of-prefix accesses observe. -/

structure BucketPage where
  maxSize : Nat
  /-- `array_[0 .. size_)`; `size_` is the length. -/
  entries : List (Int × Int)

def bucketSize (b : BucketPage) : Nat := b.entries.length

/-- `ExtendibleHTableBucketPage::Lookup`. -/
def bucketLookup (b : BucketPage) (key : Int) : Option Int :=
  (b.entries.find? (fun e => e.1 = key)).map (fun e => e.2)

/-- `ExtendibleHTableBucketPage::Insert`: refuse when full, refuse
duplicates, else append. -/
def bucketInsert (b : BucketPage) (key value : Int) : Bool × BucketPage :=
  if bucketSize b = b.maxSize then (false, b)
  else if (b.entries.find? (fun e => e.1 = key)).isSome then (false, b)
  else (true, { b with entries := b.entries ++ [(key, value)] })

/-- `ExtendibleHTableBucketPage::Remove`: delete the first match, shifting
the tail left. -/
def bucketRemove (b : BucketPage) (key : Int) : Bool × BucketPage :=
  if (b.entries.find? (fun e => e.1 = key)).isSome then
    (true, { b with entries := b.entries.eraseP (fun e => e.1 = key) })
  else (false, b)

structure DirectoryPage where
  maxDepth : Nat
  globalDepth : Nat
  localDepths : Nat → Nat
  bucketPageIds : Nat → Int

/-- `ExtendibleHTableDirectoryPage::Init` on a zero-filled page. -/
def dirInit (maxDepth : Nat) : DirectoryPage where
  maxDepth := maxDepth
  globalDepth := 0
  localDepths := fun _ => 0
  bucketPageIds := fun i => if i < 2 ^ maxDepth then -1 else 0

/-- `HashToBucketIndex`: `hash & ((1 << global_depth) - 1)`. -/
def dirHashToBucketIndex (d : DirectoryPage) (h : Nat) : Nat :=
  h % 2 ^ d.globalDepth

/-- `GetSplitImageIndex`: `bucket_idx + (1 << (global_depth - 1))`. -/
def dirGetSplitImageIndex (d : DirectoryPage) (bucketIdx : Nat) : Nat :=
  bucketIdx + 2 ^ (d.globalDepth - 1)

/-- `IncrGlobalDepth`: copy each slot `i` to slot `i + 2^global_depth`,
then increment.  (`DiskExtendibleHashTable::Insert` repeats the same copy
loop right after calling this; the second pass rewrites identical values,
so the combined effect is this single copy.) -/
def dirIncrGlobalDepth (d : DirectoryPage) : DirectoryPage :=
  if d.maxDepth ≤ d.globalDepth then d
  else
    { d with
      bucketPageIds := fun i =>
        if 2 ^ d.globalDepth ≤ i ∧ i < 2 ^ (d.globalDepth + 1) then
          d.bucketPageIds (i - 2 ^ d.globalDepth)
        else d.bucketPageIds i,
      localDepths := fun i =>
        if 2 ^ d.globalDepth ≤ i ∧ i < 2 ^ (d.globalDepth + 1) then
          d.localDepths (i - 2 ^ d.globalDepth)
        else d.localDepths i,
      globalDepth := d.globalDepth + 1 }

/-- `IncrLocalDepth`: increments only while below the global depth. -/
def dirIncrLocalDepth (d : DirectoryPage) (i : Nat) : DirectoryPage :=
  if d.localDepths i < d.globalDepth then
    { d with localDepths := fun j => if j = i then d.localDepths i + 1 else d.localDepths j }
  else d

inductive HPage where
  | dir (d : DirectoryPage)
  | bucket (b : BucketPage)

def hpageIsDir : Option HPage → Bool
  | some (HPage.dir _) => true
  | _ => false

/-- The hash-table state: the constructor parameters, the header page's
directory-id array, and the buffer-pool-backed page store. -/
structure HTState where
  pages : List (Int × HPage)
  nextPageId : Int
  headerMaxDepth : Nat
  headerDirIds : Nat → Int
  directoryMaxDepth : Nat
  bucketMaxSize : Nat

def htLookupPage (s : HTState) (pid : Int) : Option HPage :=
  (s.pages.find? (fun e => e.1 = pid)).map (fun e => e.2)

def htSetPage (s : HTState) (pid : Int) (p : HPage) : HTState :=
  { s with pages :=
      if (s.pages.find? (fun e => e.1 = pid)).isSome then
        s.pages.map (fun e => if e.1 = pid then (pid, p) else e)
      else s.pages ++ [(pid, p)] }

/-- `bpm_->NewPageGuarded`: allocate a fresh page id and install the
initialized content. -/
def htNewPage (s : HTState) (p : HPage) : Int × HTState :=
  (s.nextPageId,
    { s with pages := s.pages ++ [(s.nextPageId, p)], nextPageId := s.nextPageId + 1 })

/-- `DiskExtendibleHashTable` constructor: the header page (page 0) is
created and initialized; data pages start at id 1. -/
def htNew (headerMaxDepth directoryMaxDepth bucketMaxSize : Nat) : HTState where
  pages := []
  nextPageId := 1
  headerMaxDepth := headerMaxDepth
  headerDirIds := fun _ => -1
  directoryMaxDepth := directoryMaxDepth
  bucketMaxSize := bucketMaxSize

/-- `Hash(key)`: the 32-bit hash of the supplied hash function. -/
def htHash (hashFn : Int → Nat) (key : Int) : Nat :=
  hashFn key % 2 ^ 32

/-- `ExtendibleHTableHeaderPage::HashToDirectoryIndex`. -/
def headerHashToDirectoryIndex (maxDepth : Nat) (h : Nat) : Nat :=
  if maxDepth = 0 then 0 else h / 2 ^ (32 - maxDepth)

/-- `ExtendibleHTableHeaderPage::GetDirectoryPageId` (bounds-checked). -/
def headerGetDirectoryPageId (s : HTState) (idx : Nat) : Int :=
  if 2 ^ s.headerMaxDepth ≤ idx then -1 else s.headerDirIds idx

/-- `ExtendibleHTableHeaderPage::SetDirectoryPageId` (bounds-checked). -/
def headerSetDirectoryPageId (s : HTState) (idx : Nat) (pid : Int) : HTState :=
  if 2 ^ s.headerMaxDepth ≤ idx then s
  else { s with headerDirIds := fun i => if i = idx then pid else s.headerDirIds i }

/-- `DiskExtendibleHashTable::GetValue` (the single found value, since the
bucket holds at most one entry per key). -/
def htGetValue (hashFn : Int → Nat) (s : HTState) (key : Int) : Option Int :=
  let h := htHash hashFn key
  let dirId := headerGetDirectoryPageId s (headerHashToDirectoryIndex s.headerMaxDepth h)
  if dirId = INVALID_PAGE_ID then none
  else
    match htLookupPage s dirId with
    | some (HPage.dir d) =>
      let bktId := d.bucketPageIds (dirHashToBucketIndex d h)
      if bktId = INVALID_PAGE_ID then none
      else
        match htLookupPage s bktId with
        | some (HPage.bucket b) => bucketLookup b key
        | _ => none
    | _ => none

/-- `DiskExtendibleHashTable::InsertToNewBucket`. -/
def htInsertToNewBucket (s : HTState) (dirId : Int) (bucketIdx : Nat)
    (key value : Int) : Bool × HTState :=
  let (bId, s1) := htNewPage s (HPage.bucket ⟨s.bucketMaxSize, []⟩)
  match htLookupPage s1 dirId with
  | some (HPage.dir d) =>
    let d1 := { d with
      bucketPageIds := fun i => if i = bucketIdx then bId else d.bucketPageIds i }
    let s2 := htSetPage s1 dirId (HPage.dir d1)
    let (ok, b1) := bucketInsert ⟨s.bucketMaxSize, []⟩ key value
    (ok, htSetPage s2 bId (HPage.bucket b1))
  | _ => (false, s1)

/-- `DiskExtendibleHashTable::InsertToNewDirectory`. -/
def htInsertToNewDirectory (s : HTState) (dirIdx : Nat) (h : Nat)
    (key value : Int) : Bool × HTState :=
  let (dirId, s1) := htNewPage s (HPage.dir (dirInit s.directoryMaxDepth))
  let s2 := headerSetDirectoryPageId s1 dirIdx dirId
  let bucketIdx := dirHashToBucketIndex (dirInit s.directoryMaxDepth) h
  htInsertToNewBucket s2 dirId bucketIdx key value

/-- `DiskExtendibleHashTable::SplitBucket`: allocate the split bucket,
point the (single) split-image slot at it with the already-incremented
local depth, clear the old bucket, and redistribute its entries by
`hash % 2^global_depth` into whichever of the two pages the target slot
references. -/
def htSplitBucket (hashFn : Int → Nat) (s : HTState) (dirId bktId : Int)
    (bucketIdx : Nat) : Bool × HTState :=
  let (splitId, s1) := htNewPage s (HPage.bucket ⟨s.bucketMaxSize, []⟩)
  match htLookupPage s1 dirId with
  | some (HPage.dir d) =>
    let splitIdx := dirGetSplitImageIndex d bucketIdx
    let localDepth := d.localDepths bucketIdx
    let d1 := { d with
      bucketPageIds := fun i => if i = splitIdx then splitId else d.bucketPageIds i,
      localDepths := fun i => if i = splitIdx then localDepth else d.localDepths i }
    let s2 := htSetPage s1 dirId (HPage.dir d1)
    let bucketPageId := d1.bucketPageIds bucketIdx
    if bucketPageId = INVALID_PAGE_ID then (false, s2)
    else
      match htLookupPage s2 bktId with
      | some (HPage.bucket bkt) =>
        let s3 := htSetPage s2 bktId (HPage.bucket { bkt with entries := [] })
        let s4 := bkt.entries.foldl
          (fun st e =>
            let targetPageId := d1.bucketPageIds (dirHashToBucketIndex d1 (htHash hashFn e.1))
            if targetPageId = bucketPageId then
              match htLookupPage st bktId with
              | some (HPage.bucket bb) =>
                htSetPage st bktId (HPage.bucket (bucketInsert bb e.1 e.2).2)
              | _ => st
            else if targetPageId = splitId then
              match htLookupPage st splitId with
              | some (HPage.bucket sb) =>
                htSetPage st splitId (HPage.bucket (bucketInsert sb e.1 e.2).2)
              | _ => st
            else st)
          s3
        (true, s4)
      | _ => (false, s2)
  | _ => (false, s1)

/-- `DiskExtendibleHashTable::Insert`.  The C++ retries itself recursively
after a split with no bound, so the embedding takes explicit fuel; every
concrete run below terminates well within it.  Note the full-bucket path:
`h` is `2^global_depth` read *before* any doubling, and the two
`IncrLocalDepth` calls touch only `bucket_index` and `bucket_index + h` —
when no doubling happened, the latter lies beyond the live directory. -/
def htInsert (hashFn : Int → Nat) : Nat → HTState → Int → Int → Bool × HTState
  | 0, s, _, _ => (false, s)
  | fuel + 1, s, key, value =>
    if (htGetValue hashFn s key).isSome then (false, s)
    else
      let h := htHash hashFn key
      let dirIdx := headerHashToDirectoryIndex s.headerMaxDepth h
      let dirId := headerGetDirectoryPageId s dirIdx
      if dirId = INVALID_PAGE_ID then htInsertToNewDirectory s dirIdx h key value
      else
        match htLookupPage s dirId with
        | some (HPage.dir d) =>
          let bucketIdx := dirHashToBucketIndex d h
          let bktId := d.bucketPageIds bucketIdx
          if bktId = INVALID_PAGE_ID then htInsertToNewBucket s dirId bucketIdx key value
          else
            match htLookupPage s bktId with
            | some (HPage.bucket bkt) =>
              let res := bucketInsert bkt key value
              if res.1 then (true, htSetPage s bktId (HPage.bucket res.2))
              else
                let hpow := 2 ^ d.globalDepth
                if d.localDepths bucketIdx = d.globalDepth ∧
                    d.maxDepth ≤ d.globalDepth then (false, s)
                else
                  let d1 :=
                    if d.localDepths bucketIdx = d.globalDepth then
                      dirIncrGlobalDepth d
                    else d
                  let d2 := dirIncrLocalDepth d1 bucketIdx
                  let d3 := dirIncrLocalDepth d2 (bucketIdx + hpow)
                  let s1 := htSetPage s dirId (HPage.dir d3)
                  let res2 := htSplitBucket hashFn s1 dirId bktId bucketIdx
                  if res2.1 then htInsert hashFn fuel res2.2 key value
                  else (false, res2.2)
            | _ => (false, s)
        | _ => (false, s)

/-- The claim's directory invariant, as a decidable check over the live
slots: every local depth bounded by the global depth; slots agreeing on
the low `local_depth[i]` bits share the bucket page; every slot holds a
valid id that resolves to a bucket page within its capacity. -/
def dirInvariantHolds (d : DirectoryPage) (s : HTState) : Bool :=
  let size := 2 ^ d.globalDepth
  ((List.range size).all fun i => d.localDepths i ≤ d.globalDepth) &&
  ((List.range size).all fun i => (List.range size).all fun j =>
    !(decide (i % 2 ^ d.localDepths i = j % 2 ^ d.localDepths i)) ||
      decide (d.bucketPageIds i = d.bucketPageIds j)) &&
  ((List.range size).all fun i => !(decide (d.bucketPageIds i = INVALID_PAGE_ID))) &&
  ((List.range size).all fun i =>
    match htLookupPage s (d.bucketPageIds i) with
    | some (HPage.bucket b) => decide (bucketSize b ≤ b.maxSize)
    | _ => false)

/-- Identity hash for `int` keys (the hash function is a constructor
parameter of the table). -/
def htIdHash : Int → Nat := fun k => k.toNat

/-- `header_max_depth = 0`, `directory_max_depth = 3`, `bucket_max_size =
1`; insert keys 0, 1, 2, then 3. -/
def htStep1 : Bool × HTState := htInsert htIdHash 10 (htNew 0 3 1) 0 0

def htStep2 : Bool × HTState := htInsert htIdHash 10 htStep1.2 1 1

def htStep3 : Bool × HTState := htInsert htIdHash 10 htStep2.2 2 2

def htStep4 : Bool × HTState := htInsert htIdHash 10 htStep3.2 3 3

/-- The directory page (page id 1) after the four inserts. -/
def htC2Dir : DirectoryPage :=
  match htLookupPage htStep4.2 1 with
  | some (HPage.dir d) => d
  | _ => dirInit 0

/-- A small table (`directory_max_depth = 2`, `bucket_max_size = 2`)
holding the key 0, for exercising the duplicate-insert path. -/
def htDupState : HTState := (htInsert htIdHash 10 (htNew 0 2 2) 0 7).2

/-! ## Theorems -/

/-! ### Association-list lemmas for trie children maps -/

theorem children_mk (cs : List (Byte × TrieNode)) (v : Option Nat) :
    (TrieNode.mk cs v).children = cs := rfl

theorem value_mk (cs : List (Byte × TrieNode)) (v : Option Nat) :
    (TrieNode.mk cs v).value = v := rfl

theorem mapFind_insert_self (l : List (Byte × TrieNode)) (c : Byte) (n : TrieNode) :
    mapFind (mapInsert l c n) c = some n := by
  induction l with
  | nil => simp [mapFind, mapInsert]
  | cons p rest ih =>
    obtain ⟨k, m⟩ := p
    by_cases h : k = c <;> simp [mapFind, mapInsert, h, ih]

theorem mapFind_eq_none_of_forall (l : List (Byte × TrieNode)) (c : Byte)
    (h : ∀ p ∈ l, p.1 ≠ c) : mapFind l c = none := by
  induction l with
  | nil => simp [mapFind]
  | cons p rest ih =>
    obtain ⟨k, m⟩ := p
    have hk : k ≠ c := h (k, m) (List.mem_cons_self _ _)
    simp only [mapFind, if_neg hk]
    exact ih fun q hq => h q (List.mem_cons_of_mem _ hq)

theorem mapFind_erase_self (l : List (Byte × TrieNode)) (c : Byte)
    (hl : l.Pairwise (fun p q => p.1 ≠ q.1)) :
    mapFind (mapErase l c) c = none := by
  induction l with
  | nil => simp [mapFind, mapErase]
  | cons p rest ih =>
    obtain ⟨k, m⟩ := p
    rcases List.pairwise_cons.mp hl with ⟨hk, hrest⟩
    by_cases h : k = c
    · subst h
      simp only [mapErase, if_pos rfl]
      exact mapFind_eq_none_of_forall _ _ fun q hq h2 => hk q hq h2.symm
    · simp only [mapErase, if_neg h, mapFind, if_neg h]
      exact ih hrest

theorem mapFind_mem (l : List (Byte × TrieNode)) (c : Byte) (m : TrieNode)
    (h : mapFind l c = some m) : ∃ k, (k, m) ∈ l := by
  induction l with
  | nil => simp [mapFind] at h
  | cons p rest ih =>
    obtain ⟨k, n⟩ := p
    by_cases hk : k = c
    · simp only [mapFind, if_pos hk] at h
      cases h
      exact ⟨k, List.mem_cons_self _ _⟩
    · simp only [mapFind, if_neg hk] at h
      obtain ⟨k2, hmem⟩ := ih h
      exact ⟨k2, List.mem_cons_of_mem _ hmem⟩

theorem mem_mapInsert (l : List (Byte × TrieNode)) (c : Byte) (n : TrieNode)
    (p : Byte × TrieNode) (hp : p ∈ mapInsert l c n) : p = (c, n) ∨ p ∈ l := by
  induction l with
  | nil => simpa [mapInsert] using hp
  | cons q rest ih =>
    obtain ⟨k, m⟩ := q
    by_cases hk : k = c
    · simp only [mapInsert, if_pos hk] at hp
      rcases List.mem_cons.mp hp with h | h
      · exact Or.inl h
      · exact Or.inr (List.mem_cons_of_mem _ h)
    · simp only [mapInsert, if_neg hk] at hp
      rcases List.mem_cons.mp hp with h | h
      · exact Or.inr (by simp [h])
      · rcases ih h with h2 | h2
        · exact Or.inl h2
        · exact Or.inr (List.mem_cons_of_mem _ h2)

theorem pairwise_mapInsert (l : List (Byte × TrieNode)) (c : Byte) (n : TrieNode)
    (hl : l.Pairwise (fun p q => p.1 ≠ q.1)) :
    (mapInsert l c n).Pairwise (fun p q => p.1 ≠ q.1) := by
  induction l with
  | nil => simp [mapInsert]
  | cons q rest ih =>
    obtain ⟨k, m⟩ := q
    rcases List.pairwise_cons.mp hl with ⟨hk, hrest⟩
    by_cases h : k = c
    · subst h
      simp only [mapInsert, if_pos rfl]
      exact List.pairwise_cons.mpr ⟨fun p hp => hk p hp, hrest⟩
    · simp only [mapInsert, if_neg h]
      refine List.pairwise_cons.mpr ⟨?_, ih hrest⟩
      intro p hp
      rcases mem_mapInsert rest c n p hp with h2 | h2
      · simp only [h2]
        exact h
      · exact hk p h2

theorem mem_mapErase (l : List (Byte × TrieNode)) (c : Byte)
    (p : Byte × TrieNode) (hp : p ∈ mapErase l c) : p ∈ l := by
  induction l with
  | nil => exact absurd hp (by simp [mapErase])
  | cons q rest ih =>
    obtain ⟨k, m⟩ := q
    by_cases hk : k = c
    · simp only [mapErase, if_pos hk] at hp
      exact List.mem_cons_of_mem _ hp
    · rw [mapErase, if_neg hk] at hp
      rcases List.mem_cons.mp hp with h | h
      · simp [h]
      · exact List.mem_cons_of_mem _ (ih h)

theorem pairwise_mapErase (l : List (Byte × TrieNode)) (c : Byte)
    (hl : l.Pairwise (fun p q => p.1 ≠ q.1)) :
    (mapErase l c).Pairwise (fun p q => p.1 ≠ q.1) := by
  induction l with
  | nil => simp [mapErase]
  | cons q rest ih =>
    obtain ⟨k, m⟩ := q
    rcases List.pairwise_cons.mp hl with ⟨hk, hrest⟩
    by_cases h : k = c
    · simp only [mapErase, if_pos h]
      exact hrest
    · simp only [mapErase, if_neg h]
      exact List.pairwise_cons.mpr
        ⟨fun p hp => hk p (mem_mapErase rest c p hp), ih hrest⟩

/-! ### Trie well-formedness preservation -/

theorem WFNode.children_pairwise {n : TrieNode} (h : WFNode n) :
    n.children.Pairwise (fun p q => p.1 ≠ q.1) := by
  cases h with
  | mk cs v hp hc => exact hp

theorem WFNode.children_wf {n : TrieNode} (h : WFNode n) :
    ∀ p ∈ n.children, WFNode p.2 := by
  cases h with
  | mk cs v hp hc => exact hc

theorem wf_cloneOf {old : Option TrieNode} (h : WFRoot old) : WFNode (cloneOf old) := by
  cases old with
  | none => exact WFNode.mk [] none (by simp) (by simp)
  | some n => exact h

theorem wf_childOf {old : Option TrieNode} (h : WFRoot old) (c : Byte) :
    WFRoot (childOf old c) := by
  cases old with
  | none => simp [childOf, WFRoot]
  | some n =>
    simp only [childOf]
    cases hfind : mapFind n.children c with
    | none => simp [WFRoot]
    | some m =>
      obtain ⟨k, hmem⟩ := mapFind_mem _ _ _ hfind
      exact h.children_wf _ hmem

theorem wf_trieDescend (root : Option TrieNode) (key : List Byte) (h : WFRoot root) :
    WFRoot (trieDescend root key) := by
  induction key generalizing root with
  | nil => exact h
  | cons c rest ih =>
    cases root with
    | none => simpa [trieDescend] using h
    | some n =>
      simp only [trieDescend]
      exact ih (mapFind n.children c) (wf_childOf h c)

theorem wf_putAux (old : Option TrieNode) (keyHead : List Byte) (back : Byte) (v : Nat)
    (h : WFRoot old) : WFNode (putAux old keyHead back v) := by
  induction keyHead generalizing old with
  | nil =>
    refine WFNode.mk _ _ (pairwise_mapInsert _ _ _ (wf_cloneOf h).children_pairwise) ?_
    intro p hp
    rcases mem_mapInsert _ _ _ p hp with h2 | h2
    · subst h2
      refine WFNode.mk _ _ (wf_cloneOf (wf_childOf h back)).children_pairwise ?_
      exact (wf_cloneOf (wf_childOf h back)).children_wf
    · exact (wf_cloneOf h).children_wf _ h2
  | cons c rest ih =>
    refine WFNode.mk _ _ (pairwise_mapInsert _ _ _ (wf_cloneOf h).children_pairwise) ?_
    intro p hp
    rcases mem_mapInsert _ _ _ p hp with h2 | h2
    · subst h2
      exact ih (childOf old c) (wf_childOf h c)
    · exact (wf_cloneOf h).children_wf _ h2

theorem wf_triePut (root : Option TrieNode) (key : List Byte) (v : Nat)
    (h : WFRoot root) : WFRoot (triePut root key v) := by
  unfold triePut
  by_cases hb : (match key.getLast? with | some b => b | none => (0 : Byte)) = 0
  · simp only [hb, if_pos rfl]
    refine WFNode.mk _ _ (wf_cloneOf (wf_trieDescend root key.dropLast h)).children_pairwise ?_
    exact (wf_cloneOf (wf_trieDescend root key.dropLast h)).children_wf
  · simp only [if_neg hb]
    exact wf_putAux root key.dropLast _ v h

/-! ### Trie get-after-put and get-after-remove -/

theorem trieGetNode_putAux (keyHead : List Byte) (old : Option TrieNode) (back : Byte)
    (v : Nat) : trieGetNode (putAux old keyHead back v) (keyHead ++ [back]) = some v := by
  induction keyHead generalizing old with
  | nil =>
    simp only [putAux, List.nil_append, trieGetNode, children_mk, mapFind_insert_self,
      value_mk]
  | cons c rest ih =>
    simp only [putAux, List.cons_append, trieGetNode, children_mk, mapFind_insert_self]
    exact ih (childOf old c)

theorem trieGet_triePut (root : Option TrieNode) (key : List Byte) (v : Nat)
    (hkey : key.getLast? ≠ some 0) :
    trieGet (triePut root key v) key = some v := by
  rcases List.eq_nil_or_concat key with hnil | ⟨l, b, hcat⟩
  · subst hnil
    simp [triePut, trieGet, trieGetNode, List.getLast?, value_mk]
  · rw [List.concat_eq_append] at hcat
    subst hcat
    have hlast : (l ++ [b]).getLast? = some b := List.getLast?_concat l
    have hb : b ≠ 0 := by
      intro h
      exact hkey (by rw [hlast, h])
    have hdrop : (l ++ [b]).dropLast = l := List.dropLast_concat
    simp only [triePut, hlast, if_neg hb, hdrop, trieGet]
    exact trieGetNode_putAux l root b v

theorem removeAux_get (key : List Byte) (n : TrieNode) (hwf : WFNode n) :
    (removeAux n key = none → trieGetNode n key = none) ∧
      (∀ m, removeAux n key = some (some m) → trieGetNode m key = none) := by
  induction key generalizing n with
  | nil =>
    constructor
    · intro h
      simp only [removeAux] at h
      by_cases hv : n.value.isSome
      · by_cases hc : n.children.isEmpty <;> simp [hv, hc] at h
      · simpa [trieGetNode, Option.isSome] using Option.not_isSome_iff_eq_none.mp hv
    · intro m h
      simp only [removeAux] at h
      by_cases hv : n.value.isSome
      · by_cases hc : n.children.isEmpty
        · simp [hv, hc] at h
        · simp only [if_pos hv, if_neg hc, Option.some.injEq] at h
          simp [← h, trieGetNode, value_mk]
      · simp [hv] at h
  | cons c rest ih =>
    constructor
    · intro h
      cases hfind : mapFind n.children c with
      | none => simp [trieGetNode, hfind]
      | some child =>
        obtain ⟨k, hmem⟩ := mapFind_mem _ _ _ hfind
        have hchild : WFNode child := hwf.children_wf _ hmem
        cases hrec : removeAux child rest with
        | none =>
          simp only [trieGetNode, hfind]
          exact (ih child hchild).1 hrec
        | some r =>
          cases r with
          | none =>
            simp only [removeAux, hfind, hrec] at h
            split at h <;> simp at h
          | some m2 => simp [removeAux, hfind, hrec] at h
    · intro m h
      cases hfind : mapFind n.children c with
      | none => simp [removeAux, hfind] at h
      | some child =>
        obtain ⟨k, hmem⟩ := mapFind_mem _ _ _ hfind
        have hchild : WFNode child := hwf.children_wf _ hmem
        cases hrec : removeAux child rest with
        | none => simp [removeAux, hfind, hrec] at h
        | some r =>
          cases r with
          | none =>
            simp only [removeAux, hfind, hrec] at h
            split at h
            · simp at h
            · simp only [Option.some.injEq] at h
              subst h
              simp only [trieGetNode, children_mk]
              rw [mapFind_erase_self _ _ hwf.children_pairwise]
          | some m2 =>
            simp only [removeAux, hfind, hrec, Option.some.injEq] at h
            subst h
            simp only [trieGetNode, children_mk, mapFind_insert_self]
            exact (ih child hchild).2 m2 hrec

theorem trieGet_trieRemove (root : Option TrieNode) (key : List Byte)
    (hwf : WFRoot root) : trieGet (trieRemove root key) key = none := by
  cases root with
  | none => simp [trieRemove, trieGet]
  | some n =>
    simp only [trieRemove]
    cases hrem : removeAux n key with
    | none =>
      simp only [trieGet]
      exact (removeAux_get key n hwf).1 hrem
    | some r =>
      cases r with
      | none => simp [trieGet]
      | some m =>
        simp only [trieGet]
        exact (removeAux_get key n hwf).2 m hrem

/-! ### Claim C1 -/

/-- C1 (amended): for every well-formed trie `T`, value `v`, and key `k`
that does not end in the NUL byte `0x00` (this includes the empty key),
`T.put(k,v).get(k) = Some v` and `T.put(k,v).remove(k).get(k) = None`.
`T` itself is untouched by construction: the embedded operations are pure
functions on the root handle, mirroring the `const` copy-on-write C++
methods. -/
theorem trie_put_get_remove (T : Option TrieNode) (k : List Byte) (v : Nat)
    (hwf : WFRoot T) (hk : k.getLast? ≠ some 0) :
    trieGet (triePut T k v) k = some v ∧
      trieGet (trieRemove (triePut T k v) k) k = none :=
  ⟨trieGet_triePut T k v hk,
    trieGet_trieRemove (triePut T k v) k (wf_triePut T k v hwf)⟩

/-- Witness for `trie_put_get_remove` at `T` the empty trie, `k = "a"`
(byte 97), `v = 7`. -/
theorem trie_put_get_remove_witness :
    WFRoot (none : Option TrieNode) ∧ ([(97 : Byte)].getLast? ≠ some 0) ∧
      (trieGet (triePut none [(97 : Byte)] 7) [(97 : Byte)] = some 7 ∧
        trieGet (trieRemove (triePut none [(97 : Byte)] 7) [(97 : Byte)]) [(97 : Byte)] = none) :=
  ⟨trivial, by decide,
    trie_put_get_remove none [(97 : Byte)] 7 trivial (by decide)⟩

/-- C1 counterexample: the claim quantifies over **every** key, but
`Trie::Put` computes `key_back = key.empty() ? '\0' : key.back()` and sends
any key whose last byte is `'\0'` down the empty-key branch.  For the empty
trie and the one-byte key `"\0"`, put stores the value at the root, and get
(which walks the `'\0'` child) finds nothing. -/
theorem trie_put_get_nul_counterexample :
    trieGet (triePut none [(0 : Byte)] 7) [(0 : Byte)] ≠ some 7 := by decide

/-! ### Generic scan lemmas (shared by the two eviction scans) -/

/-- In a `Pairwise R` list, the element `find?` returns is `R`-related to
every *other* element satisfying the predicate. -/
theorem find?_pairwise {α : Type} {R : α → α → Prop} {p : α → Bool} {l : List α}
    (hl : l.Pairwise R) {f : α} (hf : l.find? p = some f)
    {g : α} (hg : g ∈ l) (hpg : p g = true) (hne : g ≠ f) : R f g := by
  induction l with
  | nil => simp at hf
  | cons a rest ih =>
    rcases List.pairwise_cons.mp hl with ⟨ha, hrest⟩
    cases hpa : p a with
    | true =>
      rw [List.find?_cons_of_pos _ hpa] at hf
      cases hf
      rcases List.mem_cons.mp hg with h | h
      · exact absurd h hne
      · exact ha g h
    | false =>
      rw [List.find?_cons_of_neg _ (by simp [hpa])] at hf
      rcases List.mem_cons.mp hg with h | h
      · subst h
        rw [hpg] at hpa
        exact Bool.noConfusion hpa
      · exact ih hrest hf h

theorem headD_of_head? {l : List Nat} {t : Nat} (h : l.head? = some t) :
    l.headD 0 = t := by
  cases l with
  | nil => simp at h
  | cons a rest => simpa using h

/-! ### Claim C3: `LRUKReplacer::Evict` -/

/-- C3: on every well-formed replacer state, `Evict` returns `none` when no
tracked frame is evictable, and otherwise returns an evictable frame `f`
with the largest backward k-distance — any other candidate with `+∞`
distance forces `f` to have `+∞` distance with an earlier first-access
timestamp, and any other candidate with a finite distance has distance
`≤` that of `f` — and the returned state has `f`'s access history cleared
(`time_frame` emptied, recorded count reset) and `size()` decremented by
one. -/
theorem lruEvict_spec (r : LRUKReplacer) (hwf : LRUWF r) :
    (lruEvictableFrames r = [] → lruEvict r = (none, r)) ∧
    (lruEvictableFrames r ≠ [] →
      ∃ f, (lruEvict r).1 = some f ∧ f ∈ lruEvictableFrames r ∧
        (∀ g ∈ lruEvictableFrames r, g ≠ f →
          (lruKDistance r g = none →
              lruKDistance r f = none ∧ lruHeadTime r f < lruHeadTime r g) ∧
          (∀ dg, lruKDistance r g = some dg →
              ∀ df, lruKDistance r f = some df → dg ≤ df)) ∧
        (lruEvict r).2.timeFrame f = [] ∧
        (lruEvict r).2.recordedCnt f = 0 ∧
        lruSize (lruEvict r).2 = lruSize r - 1) := by
  obtain ⟨hk, hnew, hcache, hnewsort, hcachesort, hsize⟩ := hwf
  constructor
  · intro hE
    have h0 : r.currSize = 0 := by rw [hsize, hE]; rfl
    simp [lruEvict, h0]
  · intro hE
    have h0 : r.currSize ≠ 0 := by
      rw [hsize]
      simpa using hE
    cases hscan1 : r.newFrame.reverse.find? (fun f => r.evictable f) with
    | some f =>
      have hf_ev : r.evictable f = true := List.find?_some hscan1
      have hf_mem : f ∈ r.newFrame := List.mem_reverse.mp (List.mem_of_find?_eq_some hscan1)
      have hf_cnt := hnew f hf_mem
      refine ⟨f, ?_, ?_, ?_, ?_, ?_, ?_⟩
      · simp [lruEvict, h0, hscan1]
      · exact List.mem_filter.mpr ⟨List.mem_append.mpr (Or.inl hf_mem), hf_ev⟩
      · intro g hg hne
        have hg_ev : r.evictable g = true := (List.mem_filter.mp hg).2
        have hg_tracked : g ∈ lruTracked r := (List.mem_filter.mp hg).1
        constructor
        · intro hgdist
          refine ⟨by simp [lruKDistance, hf_cnt.2], ?_⟩
          rcases List.mem_append.mp hg_tracked with hgn | hgc
          · -- both frames are in the history list: first-access order decides
            have hrev : r.newFrame.reverse.Pairwise
                (fun a b => lruHeadTime r a < lruHeadTime r b) :=
              List.pairwise_reverse.mpr hnewsort
            exact find?_pairwise hrev hscan1 (List.mem_reverse.mpr hgn) hg_ev hne
          · -- a cache frame never has infinite distance
            obtain ⟨p, hp, hp1⟩ := List.mem_map.mp hgc
            have := (hcache p hp).1
            rw [hp1] at this
            simp only [lruKDistance, if_neg (not_lt.mpr this)] at hgdist
            simp at hgdist
        · intro dg hdg df hdf
          simp only [lruKDistance, if_pos hf_cnt.2] at hdf
          simp at hdf
      · simp [lruEvict, h0, hscan1]
      · simp [lruEvict, h0, hscan1]
      · simp [lruEvict, h0, hscan1, lruSize]
    | none =>
      have hno : ∀ a ∈ r.newFrame, ¬ r.evictable a = true := by
        intro a ha
        exact List.find?_eq_none.mp hscan1 a (List.mem_reverse.mpr ha)
      cases hscan2 : r.cacheFrame.find? (fun p => r.evictable p.1) with
      | some e =>
        have he_ev : r.evictable e.1 = true := by simpa using List.find?_some hscan2
        have he_mem : e ∈ r.cacheFrame := List.mem_of_find?_eq_some hscan2
        have he_cnt := (hcache e he_mem).1
        have he_head : lruHeadTime r e.1 = e.2 :=
          headD_of_head? (hcache e he_mem).2
        refine ⟨e.1, ?_, ?_, ?_, ?_, ?_, ?_⟩
        · simp [lruEvict, h0, hscan1, hscan2]
        · refine List.mem_filter.mpr ⟨List.mem_append.mpr (Or.inr ?_), he_ev⟩
          exact List.mem_map.mpr ⟨e, he_mem, rfl⟩
        · intro g hg hne
          have hg_ev : r.evictable g = true := (List.mem_filter.mp hg).2
          have hg_tracked : g ∈ lruTracked r := (List.mem_filter.mp hg).1
          have hg_cache : ∃ p ∈ r.cacheFrame, p.1 = g := by
            rcases List.mem_append.mp hg_tracked with hgn | hgc
            · exact absurd hg_ev (hno g hgn)
            · obtain ⟨p, hp, hp1⟩ := List.mem_map.mp hgc
              exact ⟨p, hp, hp1⟩
          obtain ⟨p, hp_mem, hp1⟩ := hg_cache
          have hp_cnt := (hcache p hp_mem).1
          constructor
          · intro hgdist
            rw [hp1] at hp_cnt
            simp only [lruKDistance, if_neg (not_lt.mpr hp_cnt)] at hgdist
            simp at hgdist
          · intro dg hdg df hdf
            have hg_head : lruHeadTime r g = p.2 := by
              rw [← hp1]
              exact headD_of_head? (hcache p hp_mem).2
            have hpe : p ≠ e := by
              intro h
              rw [h] at hp1
              exact hne hp1.symm
            have hle : e.2 ≤ p.2 :=
              find?_pairwise hcachesort hscan2 hp_mem (by simpa [hp1] using hg_ev) hpe
            simp only [lruKDistance, if_neg (not_lt.mpr he_cnt)] at hdf
            rw [lruKDistance] at hdg
            split at hdg
            · exact Option.noConfusion hdg
            · cases hdg
              cases hdf
              rw [hg_head, he_head]
              exact Nat.sub_le_sub_left hle _
        · simp [lruEvict, h0, hscan1, hscan2]
        · simp [lruEvict, h0, hscan1, hscan2]
        · simp [lruEvict, h0, hscan1, hscan2, lruSize]
      | none =>
        exfalso
        have hnoc : ∀ p ∈ r.cacheFrame, ¬ r.evictable p.1 = true :=
          fun p hp => by simpa using List.find?_eq_none.mp hscan2 p hp
        apply hE
        refine List.filter_eq_nil_iff.mpr ?_
        intro a ha
        rcases List.mem_append.mp ha with han | hac
        · exact hno a han
        · obtain ⟨p, hp, hp1⟩ := List.mem_map.mp hac
          rw [← hp1]
          exact hnoc p hp

/-- Witness for `lruEvict_spec` on the spec's concrete tiebreak scenario
(`k = 2`, frame 0 accessed at 1 and 3, frame 1 accessed at 2): frame 1 has
`+∞` backward 2-distance and is evicted. -/
theorem lruEvict_spec_witness :
    LRUWF lruScenario3 ∧ lruEvictableFrames lruScenario3 ≠ [] ∧
      (lruEvict lruScenario3).1 = some 1 ∧
      (lruEvict lruScenario3).2.timeFrame 1 = [] ∧
      lruSize (lruEvict lruScenario3).2 = 1 := by
  refine ⟨by decide, by decide, ?_⟩
  obtain ⟨f, h1, h2, h3, h4, h5, h6⟩ := (lruEvict_spec lruScenario3 (by decide)).2 (by decide)
  have hf : f = 1 := by
    have := h1
    rw [show (lruEvict lruScenario3).1 = some 1 from by decide] at this
    exact (Option.some_inj.mp this).symm
  subst hf
  refine ⟨h1, h4, ?_⟩
  rw [h6]
  decide

/-! ### Claim C8: `LRUKReplacer::RecordAccess` on an unseen frame -/

/-- C8 (amended): `RecordAccess` on an in-range frame the replacer has
never seen (recorded count 0) creates the frame with `is_evictable =
**true**` and, provided the `curr_size_ == max_size_` self-eviction branch
is not triggered, *increments* `size()` by one — so the new frame
immediately becomes an eviction candidate. -/
theorem lruRecordAccess_unknown (r : LRUKReplacer) (fid : Nat)
    (hfid : fid ≤ r.replacerSize) (hcnt : r.recordedCnt fid = 0)
    (hfull : r.currSize ≠ r.maxSize) :
    (lruRecordAccess r fid).map
        (fun r2 => (r2.evictable fid, r2.recordedCnt fid, lruSize r2)) =
      some (true, 1, lruSize r + 1) := by
  have hrange : ¬ r.replacerSize < fid := not_lt.mpr hfid
  by_cases hk1 : (1 : Nat) = r.k
  · simp [lruRecordAccess, hrange, hcnt, hfull, ← hk1, lruSize]
  · by_cases hk0 : r.k < 1
    · simp [lruRecordAccess, hrange, hcnt, hfull, hk1, hk0, lruSize]
    · simp [lruRecordAccess, hrange, hcnt, hfull, hk1, hk0, lruSize]

/-- Witness for `lruRecordAccess_unknown`: a fresh 2-frame replacer sees
frame 0 for the first time. -/
theorem lruRecordAccess_unknown_witness :
    (0 ≤ (lruInit 2 2).replacerSize ∧ (lruInit 2 2).recordedCnt 0 = 0 ∧
        (lruInit 2 2).currSize ≠ (lruInit 2 2).maxSize) ∧
      (lruRecordAccess (lruInit 2 2) 0).map
          (fun r2 => (r2.evictable 0, r2.recordedCnt 0, lruSize r2)) =
        some (true, 1, lruSize (lruInit 2 2) + 1) :=
  ⟨⟨by decide, by decide, by decide⟩,
    lruRecordAccess_unknown (lruInit 2 2) 0 (by decide) (by decide) (by decide)⟩

/-- C8 counterexample: the claim says an unseen frame is created with
`is_evictable = false`, `size()` unchanged, and an immediately following
`evict()` unable to pick it.  On a fresh replacer (`num_frames = 2`,
`k = 2`), recording frame 0 instead yields `is_evictable = true`,
`size() = 1`, and `evict()` returns frame 0. -/
theorem lruRecordAccess_unknown_counterexample :
    (lruRecordAccess (lruInit 2 2) 0).map
        (fun r => (r.evictable 0, lruSize r, (lruEvict r).1)) ≠
      some (false, lruSize (lruInit 2 2), none) := by decide

/-! ### Claim C7: `BufferPoolManager::UnpinPage` -/

/-- C7 (amended): `UnpinPage` returns `false` for the invalid page id and
for unmapped pages, leaving the pool untouched; for a mapped page whose pin
count is already 0 it returns `false` but has **already ORed the dirty
argument into the page's dirty flag**; otherwise it ORs the dirty flag,
decrements the pin count, and calls `SetEvictable(frame, true)` on the
replacer exactly when the count reaches 0. -/
theorem unpinPage_spec (b : BufferPoolManager) (pid : Int) (dirty : Bool) :
    (pid = INVALID_PAGE_ID → unpinPage b pid dirty = (false, b)) ∧
    (lookupPT b.pageTable pid = none → unpinPage b pid dirty = (false, b)) ∧
    (∀ fid, pid ≠ INVALID_PAGE_ID → lookupPT b.pageTable pid = some fid →
      (b.pages fid).pinCount = 0 →
        unpinPage b pid dirty =
          (false,
            { b with
              pages := updatePages b.pages fid
                ({ b.pages fid with isDirty := dirty || (b.pages fid).isDirty }) })) ∧
    (∀ fid, pid ≠ INVALID_PAGE_ID → lookupPT b.pageTable pid = some fid →
      (b.pages fid).pinCount ≠ 0 →
        (unpinPage b pid dirty).1 = true ∧
        ((unpinPage b pid dirty).2.pages fid).isDirty =
          (dirty || (b.pages fid).isDirty) ∧
        ((unpinPage b pid dirty).2.pages fid).pinCount =
          (b.pages fid).pinCount - 1 ∧
        (unpinPage b pid dirty).2.replacer =
          (if (b.pages fid).pinCount - 1 = 0
            then lruSetEvictable b.replacer fid true
            else b.replacer)) := by
  refine ⟨?_, ?_, ?_, ?_⟩
  · intro h
    simp [unpinPage, h]
  · intro h
    by_cases hpid : pid = INVALID_PAGE_ID
    · simp [unpinPage, hpid]
    · simp [unpinPage, hpid, h]
  · intro fid hpid hfind h0
    simp [unpinPage, hpid, hfind, h0]
  · intro fid hpid hfind h0
    by_cases h1 : (b.pages fid).pinCount - 1 = 0 <;>
      simp [unpinPage, hpid, hfind, h0, h1, updatePages]

/-- Witness for `unpinPage_spec`, pin-count-zero branch: page 1 is mapped
to frame 0 with pin count 0. -/
theorem unpinPage_spec_witness :
    ((1 : Int) ≠ INVALID_PAGE_ID ∧ lookupPT bpmPinZeroState.pageTable 1 = some 0 ∧
        (bpmPinZeroState.pages 0).pinCount = 0) ∧
      unpinPage bpmPinZeroState 1 true =
        (false,
          { bpmPinZeroState with
            pages := updatePages bpmPinZeroState.pages 0
              ({ bpmPinZeroState.pages 0 with
                isDirty := true || (bpmPinZeroState.pages 0).isDirty }) }) :=
  ⟨⟨by decide, by decide, by decide⟩,
    (unpinPage_spec bpmPinZeroState 1 true).2.2.1 0 (by decide) (by decide) (by decide)⟩

/-- C7 counterexample: the claim says failed unpins leave the pool state —
including the page's dirty flag — unchanged.  On a pool where page 1 sits
in frame 0 with pin count 0 and a clean dirty flag, `UnpinPage(1, true)`
returns `false` yet flips the page's dirty flag to `true`, because the
source ORs the flag before the pin-count check. -/
theorem unpinPage_failure_counterexample :
    (unpinPage bpmPinZeroState 1 true).1 = false ∧
      ((unpinPage bpmPinZeroState 1 true).2.pages 0).isDirty = true ∧
      (bpmPinZeroState.pages 0).isDirty = false := by
  refine ⟨by decide, by decide, by decide⟩

/-! ### Claim C10: `BasicPageGuard` drop/move discipline -/

/-- C10: dropping a guard nulls both references; dropping, destroying, or
move-assigning over an already-dropped (or moved-from) guard issues no
further unpin; the guard move-constructed from `g` releases exactly the
unpins `g` itself would have; and a live guard's drop issues exactly one
unpin — so each pin is released exactly once across moves, explicit
`Drop`, and destruction. -/
theorem guardDrop_release_once (g : BasicPageGuard) :
    ((guardDrop g).1.bpm = none ∧ (guardDrop g).1.page = none) ∧
    (guardDrop (guardDrop g).1).2 = [] ∧
    (guardDestructor (guardDrop g).1).2 = [] ∧
    ((guardMoveCtor g).2.bpm = none ∧ (guardMoveCtor g).2.page = none) ∧
    (guardDrop (guardMoveCtor g).2).2 = [] ∧
    (∀ src, (guardMoveAssign (guardDrop g).1 src).2.2 = []) ∧
    (guardDrop (guardMoveCtor g).1).2 = (guardDrop g).2 ∧
    (∀ pool p, g.bpm = some pool → g.page = some p →
      (guardDrop g).2 = [(p, g.isDirty)]) := by
  refine ⟨⟨rfl, rfl⟩, rfl, rfl, ⟨rfl, rfl⟩, rfl, fun _ => rfl, rfl, ?_⟩
  intro pool p hb hp
  simp [guardDrop, hb, hp]

/-- Witness for `guardDrop_release_once`: a live guard on page 5. -/
theorem guardDrop_release_once_witness :
    (guardExample.bpm = some 0 ∧ guardExample.page = some 5) ∧
      (guardDrop guardExample).2 = [(5, guardExample.isDirty)] :=
  ⟨⟨rfl, rfl⟩,
    (guardDrop_release_once guardExample).2.2.2.2.2.2.2 0 5 rfl rfl⟩

/-! ### Claim C9: disk-scheduler worker loop -/

/-- C9 (amended): the worker drains the queue in FIFO order and fulfils
**every** processed request's completion signal with `true` (success),
regardless of the outcome of the underlying `DiskManager` call; the `none`
sentinel makes it exit. -/
theorem startWorkerThread_spec (dm : DiskOutcome) (reqs : List DiskRequest)
    (q : List (Option DiskRequest)) :
    startWorkerThread dm (reqs.map (fun r => some r)) =
        reqs.map (fun r => (r, dm r, true)) ∧
    startWorkerThread dm (none :: q) = [] := by
  constructor
  · induction reqs with
    | nil => rfl
    | cons r rest ih => simp [startWorkerThread, ih]
  · rfl

/-- C9 counterexample: the claim says a request whose `DiskManager` call
fails has its signal fulfilled with failure.  With an always-failing disk,
the worker still fulfils the signal of the read of page 3 with `true`. -/
theorem startWorkerThread_failure_counterexample :
    startWorkerThread (fun _ => false) [some ⟨false, 3⟩] ≠
      [(⟨false, 3⟩, false, false)] := by decide

/-! ### Claim C5: aggregation over an empty input -/

theorem generateInitialAggregateValue_eq (types : List AggregationType) :
    generateInitialAggregateValue types =
      types.map (fun t => if t = AggregationType.countStar then some 0 else none) := by
  unfold generateInitialAggregateValue
  refine List.map_congr_left ?_
  intro t _
  cases t <;> rfl

/-- C5: after `Init` over an empty child stream the hash table is empty;
with no group-by expressions the first `Next` emits exactly one row holding
the initial aggregate values (`COUNT(*)` slots are 0, all other aggregates
NULL) and every later call returns false; with group-by expressions every
call returns false.  ("Every later call" is the last conjunct: any state
with an empty table and `copy_with_empty_` set is a no-emission fixed point
of `Next`, and the post-first-call state is such a state.) -/
theorem aggregation_empty_input (plan : AggPlan) :
    (aggInit plan []).ht = [] ∧
    (plan.groupBys = [] →
      (aggNext plan (aggInit plan [])).1 =
        some (plan.aggTypes.map
          (fun t => if t = AggregationType.countStar then some 0 else none))) ∧
    (plan.groupBys ≠ [] → (aggNext plan (aggInit plan [])).1 = none) ∧
    ((aggNext plan (aggInit plan [])).2.ht = [] ∧
      (aggNext plan (aggInit plan [])).2.copyWithEmpty = true) ∧
    (∀ s : AggState, s.ht = [] → s.copyWithEmpty = true →
      aggNext plan s = (none, s)) := by
  refine ⟨rfl, ?_, ?_, ?_, ?_⟩
  · intro h
    simp [aggNext, aggInit, h, generateInitialAggregateValue_eq]
  · intro h
    simp [aggNext, aggInit, List.isEmpty_iff, h]
  · by_cases h : plan.groupBys.isEmpty <;>
      simp [aggNext, aggInit, h]
  · intro s h1 h2
    simp [aggNext, h1, h2]

/-- Witness for `aggregation_empty_input`: `SELECT COUNT(*), SUM(x)` over
no rows yields the single row `(0, NULL)`; adding a group-by yields no
row. -/
theorem aggregation_empty_input_witness :
    (aggPlanNoGroupBy.groupBys = [] ∧
      (aggNext aggPlanNoGroupBy (aggInit aggPlanNoGroupBy [])).1 =
        some [some 0, none]) ∧
    (aggPlanGroupBy.groupBys ≠ [] ∧
      (aggNext aggPlanGroupBy (aggInit aggPlanGroupBy [])).1 = none) := by
  constructor
  · refine ⟨rfl, ?_⟩
    rw [(aggregation_empty_input aggPlanNoGroupBy).2.1 rfl]
    rfl
  · refine ⟨by simp [aggPlanGroupBy], ?_⟩
    exact (aggregation_empty_input aggPlanGroupBy).2.2.1 (by simp [aggPlanGroupBy])

/-! ### Claim C6: Sort+Limit→TopN rewrite -/

/-- C6 (amended): when a `Limit(N)` node's (recursively rewritten) first
child is a `Sort(order-by)`, the rule produces `TopN(N, order-by)` whose
sole child is **the Sort node itself** — only the Limit is removed, the
Sort is retained as the TopN's child.  Every other shape is returned
structurally unchanged apart from recursively rewritten children. -/
theorem optimizeSortLimitAsTopN_spec :
    (∀ n ob scs rest,
      optimizeSortLimitAsTopN (.limit n (.sort ob scs :: rest)) =
        .topN n ob [.sort ob (optimizeSortLimitAsTopNList scs)]) ∧
    (∀ t, optimizeSortLimitAsTopN (.seqScan t) = .seqScan t) ∧
    (∀ ob cs, optimizeSortLimitAsTopN (.sort ob cs) =
      .sort ob (optimizeSortLimitAsTopNList cs)) ∧
    (∀ n ob cs, optimizeSortLimitAsTopN (.topN n ob cs) =
      .topN n ob (optimizeSortLimitAsTopNList cs)) ∧
    (∀ t cs, optimizeSortLimitAsTopN (.other t cs) =
      .other t (optimizeSortLimitAsTopNList cs)) ∧
    (∀ n cs, (∀ ob scs rest,
        optimizeSortLimitAsTopNList cs ≠ .sort ob scs :: rest) →
      optimizeSortLimitAsTopN (.limit n cs) =
        .limit n (optimizeSortLimitAsTopNList cs)) := by
  refine ⟨?_, fun _ => rfl, fun _ _ => rfl, fun _ _ _ => rfl, fun _ _ => rfl, ?_⟩
  · intro n ob scs rest
    simp [optimizeSortLimitAsTopN, optimizeSortLimitAsTopNList]
  · intro n cs hns
    simp only [optimizeSortLimitAsTopN]

/-- Witness for `optimizeSortLimitAsTopN_spec`, non-rewriting branch: a
`Limit` over a `SeqScan` is unchanged. -/
theorem optimizeSortLimitAsTopN_spec_witness :
    (∀ ob scs rest,
        optimizeSortLimitAsTopNList [PlanNode.seqScan 0] ≠
          PlanNode.sort ob scs :: rest) ∧
      optimizeSortLimitAsTopN (.limit 5 [.seqScan 0]) =
        .limit 5 (optimizeSortLimitAsTopNList [PlanNode.seqScan 0]) :=
  ⟨fun ob scs rest h => by
      simp [optimizeSortLimitAsTopNList, optimizeSortLimitAsTopN] at h,
    optimizeSortLimitAsTopN_spec.2.2.2.2.2 5 [PlanNode.seqScan 0]
      (fun ob scs rest h => by
        simp [optimizeSortLimitAsTopNList, optimizeSortLimitAsTopN] at h)⟩

/-- C6 counterexample: the claim says `Limit(5){Sort{SeqScan}}` rewrites to
`TopN(5){SeqScan}` (both nodes removed, the grandchild promoted).  The
source instead passes `optimized_plan->children_[0]` — the Sort node — as
the TopN's child, so the Sort remains in the plan. -/
theorem optimizeSortLimitAsTopN_counterexample :
    optimizeSortLimitAsTopN (.limit 5 [.sort 1 [.seqScan 0]]) ≠
      .topN 5 1 [.seqScan 0] := by
  simp [optimizeSortLimitAsTopN, optimizeSortLimitAsTopNList]

/-! ### Claim C2: extendible-hash directory invariants -/

/-- C2 (the code violates the invariant it is meant to keep): with
`header_max_depth = 0`, `directory_max_depth = 3`, `bucket_max_size = 1`
and the identity hash, inserting keys 0, 1, 2 succeeds (and the invariant
still holds), but the completed insert of key 3 — which returns `false` —
leaves the directory with `global_depth = 3`, slot 1 at local depth 1
pointing to bucket page 3 while slot 7, which agrees with slot 1 on the low
`local_depth[1] = 1` bits, points to bucket page 6.  The split path updates
only `bucket_index` and a single image slot (`IncrLocalDepth(bucket_index)`,
`IncrLocalDepth(bucket_index + h)`, `SetBucketPageId(split_idx, …)`) and
never calls `UpdateDirectoryMapping`, although that helper's own comment
says it is the routine that re-points directory entries after a bucket
split. -/
theorem extendibleHash_invariant_violation :
    htStep1.1 = true ∧ htStep2.1 = true ∧ htStep3.1 = true ∧
    htStep4.1 = false ∧
    hpageIsDir (htLookupPage htStep4.2 1) = true ∧
    htC2Dir.globalDepth = 3 ∧
    htC2Dir.localDepths 1 = 1 ∧
    1 % 2 ^ htC2Dir.localDepths 1 = 7 % 2 ^ htC2Dir.localDepths 1 ∧
    htC2Dir.bucketPageIds 1 = 3 ∧
    htC2Dir.bucketPageIds 7 = 6 ∧
    dirInvariantHolds htC2Dir htStep4.2 = false := by decide

/-! ### Claim C4: duplicate insert -/

/-- C4: for every hash-table state and key already present (`GetValue`
finds it), `Insert` returns `false` and the state — header, directory and
every bucket — is returned unchanged: the duplicate check short-circuits
before any page is touched. -/
theorem htInsert_duplicate (hashFn : Int → Nat) (s : HTState) (key value : Int)
    (fuel : Nat) (hdup : (htGetValue hashFn s key).isSome = true) :
    htInsert hashFn (fuel + 1) s key value = (false, s) := by
  simp [htInsert, hdup]

/-- Witness for `htInsert_duplicate`: re-inserting key 0 (present with
value 7) leaves the table untouched and reports failure. -/
theorem htInsert_duplicate_witness :
    (htGetValue htIdHash htDupState 0).isSome = true ∧
      htInsert htIdHash (9 + 1) htDupState 0 8 = (false, htDupState) :=
  ⟨by decide, htInsert_duplicate htIdHash htDupState 0 8 9 (by decide)⟩

end BusTub
